import Mathlib

/-!
Verification of the reddit-votewatch ingestion core: a shallow embedding of
the cursor-pagination walker, the batched bulk fetcher, the token lifecycle
bookkeeping, and the tracked-set merge operations, with theorems checking the
specification's claims against them.
-/

namespace Votewatch

/-- Fullname of a reddit listing (`media.go`): content type tag plus id. -/
abbrev Fullname := String

/-- Character class of the regex fragment given by the character range 1-6
(`media.go` line 54). -/
def isContentTypeDigit (c : Char) : Bool :=
  decide (c = '1' ∨ c = '2' ∨ c = '3' ∨ c = '4' ∨ c = '5' ∨ c = '6')

/-- Character class of the regex fragment given by the ranges a-z and 0-9
(`media.go` line 54). -/
def isLowerAlnum (c : Char) : Bool :=
  (decide ('a' ≤ c) && decide (c ≤ 'z')) || (decide ('0' ≤ c) && decide (c ≤ '9'))

/-- The regex anchored pattern t[1-6]_[a-z0-9]six-times of `Fullname.IsValid`,
read off a character list. -/
def validFullnameChars : List Char → Bool
  | 't' :: d :: '_' :: rest =>
      isContentTypeDigit d && decide (rest.length = 6) && rest.all isLowerAlnum
  | _ => false

/-- `Fullname.IsValid` (`media.go` lines 53-56): the string matches the
anchored regex. -/
def Fullname.IsValid (s : Fullname) : Bool :=
  validFullnameChars s.data

/-- `RedditContent` (`media.go` lines 20-29). -/
structure RedditContent where
  contentType : String
  id : String
  title : String
  upvotes : Int
  comments : Int
  date : Nat
  queryDate : Nat
deriving DecidableEq, Repr

/-- `RedditContent.FullId` (`media.go` lines 62-64). -/
def RedditContent.FullId (r : RedditContent) : Fullname :=
  r.contentType ++ "_" ++ r.id

/-- `ContentGroup` (`media.go` line 59): a Go map from fullname to content,
embedded as an association list with overwriting insertion. -/
def ContentGroup := List (Fullname × RedditContent)
deriving DecidableEq, Repr

namespace ContentGroup

/-- Go map assignment `m[k] = v`: overwrite the binding if present, else add. -/
def insert : ContentGroup → Fullname → RedditContent → ContentGroup
  | [], k, v => [(k, v)]
  | p :: rest, k, v =>
      if p.1 = k then (k, v) :: rest else p :: insert rest k v

/-- Go map lookup `m[k]`. -/
def find : ContentGroup → Fullname → Option RedditContent
  | [], _ => none
  | p :: rest, k => if p.1 = k then some p.2 else find rest k

/-- The keys of the map. -/
def keys (m : ContentGroup) : List Fullname := m.map Prod.fst

def empty : ContentGroup := []

end ContentGroup

/-! ## Cursor pagination walker: `getNewestPosts` (`media.go` lines 99-216)

The paged listing API is abstracted as a function from (offset into the
feed's newest-first stream, requested `limit=` value) to the page of items
returned; the `after` continuation cursor of the real protocol is the
position reached so far.  The fixed-size Go buffer `results` of length `num`
is modelled by threading the write index and signalling an out-of-bounds
write by `none` (a Go runtime panic). -/

/-- The inner per-page item loop of `getNewestPosts` (`media.go` lines
190-202): stop at the `last` marker, otherwise write each item at the running
index, `none` when a write would fall outside the buffer of size `bound`.
Returns the items written, the new index and whether the marker was hit. -/
def fillPage (last : Option Fullname) (bound : Nat) :
    Nat → List RedditContent → Option (List RedditContent × Nat × Bool)
  | idx, [] => some ([], idx, false)
  | idx, p :: rest =>
      if last = some p.FullId then some ([], idx, true)
      else if bound ≤ idx then none
      else (fillPage last bound (idx + 1) rest).map
        (fun r => (p :: r.1, r.2.1, r.2.2))

/-- The call loop of `getNewestPosts` (`media.go` lines 165-213).  Arguments:
remaining calls, `listingsNeeded`, stream offset (the `after` cursor), write
index.  Returns the accumulated items (`none` on an out-of-bounds write) and
the list of `limit=` values of the calls actually issued. -/
def walkLoop (api : Nat → Nat → List RedditContent) (bound : Nat)
    (last : Option Fullname) :
    Nat → Nat → Nat → Nat → Option (List RedditContent) × List Nat
  | 0, _, _, _ => (some [], [])
  | remCalls + 1, ln, off, idx =>
      let lim := min ln 100
      let page := api off lim
      if page.isEmpty then (some [], [lim])
      else
        match fillPage last bound idx page with
        | none => (none, [lim])
        | some (items, idx', reached) =>
          if reached then (some items, [lim])
          else
            let rest := walkLoop api bound last remCalls (ln - 100)
              (off + page.length) idx'
            ((rest.1).map (fun r => items ++ r), lim :: rest.2)

/-- `getNewestPosts` (`media.go` lines 99-216): `num` must be positive or an
error is returned before any call; `totalCalls` is the ceiling of `num/100`.
The first component is the returned slice (`none` for error or panic), the
second the `limit=` values of the issued calls. -/
def getNewestPosts (api : Nat → Nat → List RedditContent) (num : Int)
    (last : Option Fullname) : Option (List RedditContent) × List Nat :=
  if num ≤ 0 then (none, [])
  else walkLoop api num.toNat last ((num.toNat + 99) / 100) num.toNat 0 0

/-- The paged listing endpoint over an append-only newest-first feed: the
page at a given offset and requested limit. -/
def feedApi (feed : List RedditContent) (off lim : Nat) : List RedditContent :=
  (feed.drop off).take lim

/-! ## Batched bulk fetcher: `FetchPosts` (`media.go` lines 220-343)

The chunking loop and the fan-in are sequentialised: the per-chunk lookup
call is abstracted as a function returning either the chunk's contents with
the response timestamp, or a failure.  Channel receive order does not affect
the merged map beyond last-write-wins, which the claims treat per key. -/

/-- The `batchIDs` construction loop of `FetchPosts` (`media.go` lines
298-308): Go slice `IDs[a:b]` is drop then take. -/
def buildBatches (IDs : List Fullname) : Nat → Nat → List (List Fullname)
  | 0, _ => []
  | calls + 1, currentIndex =>
      let batch :=
        if IDs.length ≤ currentIndex + 100 then IDs.drop currentIndex
        else (IDs.drop currentIndex).take 100
      batch :: buildBatches IDs calls (currentIndex + 100)

/-- The chunk list of `FetchPosts`: `totalCalls` is the ceiling of the id
count over 100 (`media.go` lines 227-228). -/
def batchIDs (IDs : List Fullname) : List (List Fullname) :=
  buildBatches IDs ((IDs.length + 99) / 100) 0

/-- A successful chunk call: contents then response timestamp. -/
abbrev ChunkReply := List RedditContent × Nat

/-- Merging one successful chunk into the output map (`media.go` lines
323-327): each content gets the chunk's timestamp as query date and is
written under its own fullname. -/
def mergeChunk (acc : ContentGroup) (reply : ChunkReply) : ContentGroup :=
  reply.1.foldl
    (fun m c => m.insert c.FullId { c with queryDate := reply.2 }) acc

/-- The outcome of `FetchPosts`: merged map, the error value of the Go
return (always `none`), the permits pre-reserved by `WaitN`, the number of
completions drained from the channels, the number of failed chunks (logged
only), and the requested ids found missing from the merge (warned only). -/
structure FetchOutcome where
  map : ContentGroup
  err : Option Unit
  permits : Nat
  completions : Nat
  chunkFailures : Nat
  missing : List Fullname
deriving Repr

/-- One iteration of the fan-in loop of `FetchPosts` (`media.go` lines
319-333): a success is merged, a failure only counted; either way exactly
one completion is drained. -/
def drainStep (lookup : List Fullname → Except Unit ChunkReply)
    (st : ContentGroup × Nat × Nat) (b : List Fullname) :
    ContentGroup × Nat × Nat :=
  match lookup b with
  | Except.ok reply => (mergeChunk st.1 reply, st.2.1 + 1, st.2.2)
  | Except.error _ => (st.1, st.2.1 + 1, st.2.2 + 1)

/-- The fan-in loop of `FetchPosts` folded over the chunk list. -/
def drainChunks (lookup : List Fullname → Except Unit ChunkReply)
    (batches : List (List Fullname)) (st : ContentGroup × Nat × Nat) :
    ContentGroup × Nat × Nat :=
  batches.foldl (drainStep lookup) st

/-- `FetchPosts` (`media.go` lines 220-343). -/
def FetchPosts (lookup : List Fullname → Except Unit ChunkReply)
    (IDs : List Fullname) : FetchOutcome :=
  let totalCalls := (IDs.length + 99) / 100
  let st := drainChunks lookup (batchIDs IDs) (ContentGroup.empty, 0, 0)
  { map := st.1
    err := none
    permits := totalCalls
    completions := st.2.1
    chunkFailures := st.2.2
    missing := IDs.filter (fun id => (st.1.find id).isNone) }

/-! ## Token lifecycle (`api.go`) -/

/-- `accessTokenResponse` (`api.go` lines 26-35). -/
structure AccessTokenResponse where
  accessToken : String
  tokenType : String
  expireLength : Int
  scope : String
  initializationTime : Int
deriving DecidableEq, Repr

/-- The validity test applied to a cached record in `NewApi` (`api.go` line
134): the record is kept unless `now - initializationTime > expireLength`. -/
def tokenIsValid (t : AccessTokenResponse) (now : Int) : Bool :=
  !(decide (now - t.initializationTime > t.expireLength))

/-- The startup token resolution of `NewApi` (`api.go` lines 119-164): a
cache hit is used only when the validity test passes, every other path falls
through to a fresh acquisition.  `cached = none` covers both a missing cache
file and a cache read or parse error. -/
def resolveStartupToken (cacheEnabled : Bool)
    (cached : Option AccessTokenResponse) (now : Int)
    (fresh : AccessTokenResponse) : AccessTokenResponse :=
  if cacheEnabled then
    match cached with
    | none => fresh
    | some t => if now - t.initializationTime > t.expireLength then fresh else t
  else fresh

/-- The leniency clamp of `startTokenRefreshCycle` (`api.go` lines 233-237):
a leniency below the minimum is raised to it; a leniency of one or more is
only warned about, never changed. -/
def clampLeniency (l : ℚ) : ℚ :=
  if l < 1 / 10000 then 1 / 10000 else l

/-- The regular delay computation of `startTokenRefreshCycle` (`api.go`
lines 245-247): the expiry length minus the subtracted slice
`expireLength * (1 - leniency)`. -/
def regularDelay (expireLength : Int) (l : ℚ) : ℚ :=
  let leniency := clampLeniency l
  let delay_sub := (expireLength : ℚ) * (1 - leniency)
  (expireLength : ℚ) - delay_sub

/-- The sleep computed by `tokenRefreshCycleIteration` (`api.go` line 263):
the smaller of the regular delay and the time left on the current token. -/
def cycleSleep (regular_delay : ℚ) (t : AccessTokenResponse) (now : Int) : ℚ :=
  min regular_delay ((t.initializationTime + t.expireLength - now : Int) : ℚ)

/-! ## Tracked-set merges (`database.go`, `media.go`) -/

/-- The stream-receive loop of the current grpc `RecieveListings`
(`database.go` lines 99-113): every received listing is written into the set
under its fullname, unconditionally, and counted. -/
def recieveListingsGrpc (set : ContentGroup) (stream : List RedditContent) :
    ContentGroup × Nat :=
  stream.foldl (fun st listing => (st.1.insert listing.FullId listing, st.2 + 1))
    (set, 0)

/-- One cursor step of the historical mongo `RecieveListings` (`database.go`
lines 245-262): a document with an invalid id is skipped with a warning, a
document whose id is already present is skipped, otherwise it is added. -/
def mongoStep (acc : ContentGroup) (d : Fullname × RedditContent) :
    ContentGroup :=
  if !d.1.IsValid then acc
  else if (acc.find d.1).isSome then acc
  else acc.insert d.1 d.2

/-- The cursor loop of the historical mongo `RecieveListings` (`database.go`
lines 239-265). -/
def recieveListingsMongo (set : ContentGroup)
    (docs : List (Fullname × RedditContent)) : ContentGroup :=
  docs.foldl mongoStep set

/-! ## Discovery tick: `TrackNewlyCreatedPosts` (`media.go` lines 346-406) -/

/-- `subreddit` (`subreddit.go` lines 14-17): the empty string is the
absent cursor. -/
structure Subreddit where
  name : String
  last : Fullname
deriving DecidableEq, Repr

/-- `taskResult` (`media.go` lines 350-354), with the error represented by a
flag. -/
structure TaskResult where
  result : List RedditContent
  trackPosts : Bool
  errored : Bool
deriving DecidableEq, Repr

/-- The per-subreddit `task` closure of `TrackNewlyCreatedPosts` (`media.go`
lines 357-378): an empty cursor means walk without a marker and do not track
this round; a nonempty walk result advances the cursor to its first item. -/
def task (fetch : String → Option Fullname → Except Unit (List RedditContent))
    (sub : Subreddit) : Subreddit × TaskResult :=
  let last : Option Fullname := if sub.last = "" then none else some sub.last
  let trackPosts := last.isSome
  match fetch sub.name last with
  | Except.error _ => (sub, ⟨[], false, true⟩)
  | Except.ok result =>
      let sub' :=
        match result with
        | [] => sub
        | r0 :: _ => { sub with last := r0.FullId }
      (sub', ⟨result, trackPosts, false⟩)

/-- The receive-and-merge step of `TrackNewlyCreatedPosts` (`media.go` lines
388-403): a result whose `trackPosts` flag is off contributes nothing;
otherwise each post overwrites the tracked set under its fullname and is
counted. -/
def mergeTaskResult (st : ContentGroup × Nat) (tr : TaskResult) :
    ContentGroup × Nat :=
  if !tr.trackPosts then st
  else tr.result.foldl (fun s post => (s.1.insert post.FullId post, s.2 + 1)) st

/-- `TrackNewlyCreatedPosts` (`media.go` lines 346-406) sequentialised:
every subreddit's task runs on the pre-tick cursor state, then the results
are merged in order. -/
def TrackNewlyCreatedPosts
    (fetch : String → Option Fullname → Except Unit (List RedditContent))
    (subs : List Subreddit) (tracked : ContentGroup) :
    List Subreddit × ContentGroup × Nat :=
  let outcomes := subs.map (task fetch)
  let merged := outcomes.foldl (fun st o => mergeTaskResult st o.2) (tracked, 0)
  (outcomes.map Prod.fst, merged)

/-! ## Helper lemmas -/

theorem String.data_app (a b : String) : (a ++ b).data = a.data ++ b.data := by
  cases a; cases b; rfl

theorem String.length_eq_data (s : String) : s.length = s.data.length := rfl

namespace ContentGroup

theorem find_insert (m : ContentGroup) (k : Fullname) (v : RedditContent)
    (a : Fullname) :
    (m.insert k v).find a = if k = a then some v else m.find a := by
  induction m with
  | nil => simp [insert, find]
  | cons p rest ih =>
      by_cases hp : p.1 = k
      · rw [show insert (p :: rest) k v = (k, v) :: rest from by
          simp [insert, hp]]
        by_cases hka : k = a
        · simp [find, hka]
        · have hpa : ¬p.1 = a := by rw [hp]; exact hka
          simp [find, hka, hpa]
      · rw [show insert (p :: rest) k v = p :: insert rest k v from by
          simp [insert, hp]]
        by_cases hpa : p.1 = a
        · have hka : ¬k = a := by
            intro hk; exact hp (by rw [hpa, hk])
          simp [find, hpa, hka]
        · simp [find, hpa, ih]

theorem find_insert_self (m : ContentGroup) (k : Fullname) (v : RedditContent) :
    (m.insert k v).find k = some v := by
  simp [find_insert]

theorem find_isSome_insert (m : ContentGroup) (k : Fullname) (v : RedditContent)
    (a : Fullname) (h : (m.find a).isSome = true) :
    ((m.insert k v).find a).isSome = true := by
  rw [find_insert]
  by_cases hka : k = a
  · simp [hka]
  · simpa [hka] using h

theorem mem_keys_insert (m : ContentGroup) (k : Fullname) (v : RedditContent)
    (a : Fullname) : a ∈ (m.insert k v).keys ↔ a ∈ m.keys ∨ a = k := by
  induction m with
  | nil => simp [insert, keys]
  | cons p rest ih =>
      by_cases hp : p.1 = k
      · rw [show insert (p :: rest) k v = (k, v) :: rest from by
          simp [insert, hp]]
        simp only [keys, List.map_cons, List.mem_cons, hp]
        tauto
      · rw [show insert (p :: rest) k v = p :: insert rest k v from by
          simp [insert, hp]]
        simp only [keys, List.map_cons, List.mem_cons] at ih ⊢
        rw [ih]
        tauto

end ContentGroup

/-! ## C9: Fullname validity format -/

/-- The claim's reading of the format: a content-type tag, an underscore,
then exactly six lowercase-alphanumeric characters. -/
def SpecFullnameFormat (s : String) : Prop :=
  ∃ tag suffix : String,
    tag ∈ (["t1", "t2", "t3", "t4", "t5", "t6"] : List String) ∧
    suffix.length = 6 ∧ (∀ c ∈ suffix.data, isLowerAlnum c = true) ∧
    s = tag ++ "_" ++ suffix

theorem validFullnameChars_cons (d : Char) (rest : List Char) :
    validFullnameChars ('t' :: d :: '_' :: rest) =
      (isContentTypeDigit d && decide (rest.length = 6) && rest.all isLowerAlnum) :=
  rfl

/-- Claim C9: for every Fullname f, IsValid f holds iff f is a content-type
tag followed by an underscore and exactly 6 lowercase-alphanumeric
characters. -/
theorem c9_isValid_iff_format (f : Fullname) :
    f.IsValid = true ↔ SpecFullnameFormat f := by
  constructor
  · intro h
    obtain ⟨l⟩ := f
    unfold Fullname.IsValid at h
    simp only at h
    unfold validFullnameChars at h
    split at h
    case _ d rest =>
      simp only [Bool.and_eq_true, decide_eq_true_eq] at h
      obtain ⟨⟨hd, hlen⟩, hall⟩ := h
      unfold isContentTypeDigit at hd
      rw [decide_eq_true_eq] at hd
      have hsuffix : ∀ c ∈ (⟨rest⟩ : String).data, isLowerAlnum c = true := by
        intro c hc
        exact List.all_eq_true.mp hall c hc
      have hslen : (⟨rest⟩ : String).length = 6 := by
        simpa [String.length_eq_data] using hlen
      rcases hd with h1 | h1 | h1 | h1 | h1 | h1 <;> subst h1
      · exact ⟨"t1", ⟨rest⟩, by simp, hslen, hsuffix, by
          apply congrArg String.mk; simp [String.data_app]⟩
      · exact ⟨"t2", ⟨rest⟩, by simp, hslen, hsuffix, by
          apply congrArg String.mk; simp [String.data_app]⟩
      · exact ⟨"t3", ⟨rest⟩, by simp, hslen, hsuffix, by
          apply congrArg String.mk; simp [String.data_app]⟩
      · exact ⟨"t4", ⟨rest⟩, by simp, hslen, hsuffix, by
          apply congrArg String.mk; simp [String.data_app]⟩
      · exact ⟨"t5", ⟨rest⟩, by simp, hslen, hsuffix, by
          apply congrArg String.mk; simp [String.data_app]⟩
      · exact ⟨"t6", ⟨rest⟩, by simp, hslen, hsuffix, by
          apply congrArg String.mk; simp [String.data_app]⟩
    case _ =>
      exact absurd h (by simp)
  · rintro ⟨tag, suffix, htag, hlen, hall, rfl⟩
    have hlen' : suffix.data.length = 6 := hlen
    have hall' : suffix.data.all isLowerAlnum = true :=
      List.all_eq_true.mpr hall
    fin_cases htag <;>
      · show validFullnameChars (_ ++ _ ++ suffix).data = true
        rw [String.data_app, String.data_app]
        simp only [validFullnameChars_cons, show (String.data "_") = ['_'] from rfl]
        simp [isContentTypeDigit, hlen', hall', validFullnameChars_cons]

/-! ## C3: token validity and startup cache resolution -/

def tokStale : AccessTokenResponse :=
  { accessToken := "tok", tokenType := "bearer", expireLength := 3600,
    scope := "", initializationTime := 1000 }

def tokFresh : AccessTokenResponse :=
  { accessToken := "tok2", tokenType := "bearer", expireLength := 3600,
    scope := "", initializationTime := 4600 }

/-- Claim C3 counterexample: at obtained_at 1000, lifetime 3600 and now 4600
the difference equals the lifetime, so the claim's strict test calls the
record invalid, yet the code's check keeps it and startup uses the cached
record instead of the fresh one. -/
theorem c3_counterexample :
    tokenIsValid tokStale 4600 = true ∧
    resolveStartupToken true (some tokStale) 4600 tokFresh = tokStale ∧
    tokStale ≠ tokFresh ∧
    ¬((4600 : Int) - tokStale.initializationTime < tokStale.expireLength) := by
  refine ⟨by decide, by decide, by decide, by decide⟩

/-- Claim C3 amended: a token record is valid exactly when
now - obtained_at is at most the lifetime (the boundary is inclusive), and at
startup a cached record failing this check is discarded for a fresh token
while a record passing it is used. -/
theorem c3_token_validity (t : AccessTokenResponse) (now : Int)
    (cached : AccessTokenResponse) (fresh : AccessTokenResponse) :
    (tokenIsValid t now = true ↔ now - t.initializationTime ≤ t.expireLength) ∧
    (tokenIsValid cached now = false →
      resolveStartupToken true (some cached) now fresh = fresh) ∧
    (tokenIsValid cached now = true →
      resolveStartupToken true (some cached) now fresh = cached) := by
  refine ⟨?_, ?_, ?_⟩
  · simp [tokenIsValid]
  · intro h
    by_cases hc : now - cached.initializationTime > cached.expireLength
    · simp [resolveStartupToken, hc]
    · exfalso; simp [tokenIsValid, hc] at h
  · intro h
    by_cases hc : now - cached.initializationTime > cached.expireLength
    · exfalso; simp [tokenIsValid, hc] at h
    · simp [resolveStartupToken, hc]

theorem c3_witness :
    tokenIsValid tokStale 4000 = true ∧
    ¬tokenIsValid tokStale 4700 = true ∧
    resolveStartupToken true (some tokStale) 4700 tokFresh = tokFresh ∧
    resolveStartupToken true (some tokStale) 4000 tokFresh = tokStale :=
  ⟨(c3_token_validity tokStale 4000 tokStale tokFresh).1.mpr (by decide),
   fun h => by
     have hle := (c3_token_validity tokStale 4700 tokStale tokFresh).1.mp h
     simp [tokStale] at hle,
   (c3_token_validity tokStale 4700 tokStale tokFresh).2.1 (by decide),
   (c3_token_validity tokStale 4000 tokStale tokFresh).2.2 (by decide)⟩

/-! ## C4: token refresh delay -/

/-- Claim C4 counterexample: at lifetime 3600 and leniency 99/100 the code's
regular delay is 3564, not the 36 that lifetime times the leniency
complement would give. -/
theorem c4_counterexample :
    regularDelay 3600 (99 / 100) ≠
      (3600 : ℚ) * (1 - clampLeniency (99 / 100)) ∧
    regularDelay 3600 (99 / 100) = 3564 := by
  constructor
  · norm_num [regularDelay, clampLeniency]
  · norm_num [regularDelay, clampLeniency]

/-- Claim C4 amended: the regular delay is lifetime times the (clamped)
leniency itself — computed as lifetime minus lifetime times the leniency
complement — where leniency is raised to the minimum 1/10000 when below it
and left unchanged (warned only) when at least 1; each cycle iteration
sleeps for min(regular_delay, obtained_at + lifetime - now). -/
theorem c4_refresh_delay (L : Int) (l : ℚ) (rd : ℚ)
    (t : AccessTokenResponse) (now : Int) :
    regularDelay L l = (L : ℚ) * clampLeniency l ∧
    (l < 1 / 10000 → clampLeniency l = 1 / 10000) ∧
    (1 ≤ l → clampLeniency l = l) ∧
    cycleSleep rd t now =
      min rd ((t.initializationTime + t.expireLength - now : Int) : ℚ) := by
  refine ⟨?_, ?_, ?_, rfl⟩
  · unfold regularDelay; ring
  · intro h; unfold clampLeniency; rw [if_pos h]
  · intro h; unfold clampLeniency; rw [if_neg (by linarith)]

theorem c4_witness :
    regularDelay 3600 (99 / 100) = (3600 : ℚ) * clampLeniency (99 / 100) ∧
    clampLeniency (1 / 20000) = 1 / 10000 ∧
    clampLeniency 2 = 2 :=
  ⟨(c4_refresh_delay 3600 (99 / 100) 0 tokStale 0).1,
   (c4_refresh_delay 3600 (1 / 20000) 0 tokStale 0).2.1 (by norm_num),
   (c4_refresh_delay 3600 2 0 tokStale 0).2.2.1 (by norm_num)⟩

/-! ## C5: merge-from-storage semantics -/

def oldPost : RedditContent :=
  { contentType := "t3", id := "abc123", title := "", upvotes := 1,
    comments := 0, date := 0, queryDate := 0 }

def newPost : RedditContent :=
  { oldPost with upvotes := 5 }

def keyAbc : Fullname := "t3_abc123"

/-- Claim C5, at the failing input: the current grpc merge-from-storage
replaces the entry already present under the key with the streamed listing,
although its own doc comment says pre-existing entries are not replaced;
the historical mongo merge keeps the existing entry as documented. -/
theorem c5_grpc_merge_overwrites :
    (recieveListingsGrpc [(keyAbc, oldPost)] [newPost]).1.find keyAbc
      = some newPost ∧
    recieveListingsMongo [(keyAbc, oldPost)] [(keyAbc, newPost)] =
      [(keyAbc, oldPost)] ∧
    oldPost ≠ newPost := by
  refine ⟨by decide, by decide, by decide⟩

/-! ## Walker lemmas -/

theorem fillPage_sound (last : Option Fullname) (bound : Nat) :
    ∀ (page : List RedditContent) (idx : Nat) items idx' reached,
      fillPage last bound idx page = some (items, idx', reached) →
      items = page.take items.length ∧ idx' = idx + items.length ∧
      items.length ≤ page.length ∧
      (∀ c ∈ items, ¬last = some c.FullId) ∧
      (reached = false → items = page) := by
  intro page
  induction page with
  | nil =>
      intro idx items idx' reached h
      simp only [fillPage, Option.some.injEq, Prod.mk.injEq] at h
      obtain ⟨h1, h2, h3⟩ := h
      subst h1; subst h2
      simp
  | cons p rest ih =>
      intro idx items idx' reached h
      simp only [fillPage] at h
      by_cases hm : last = some p.FullId
      · rw [if_pos hm] at h
        simp only [Option.some.injEq, Prod.mk.injEq] at h
        obtain ⟨h1, h2, h3⟩ := h
        subst h1; subst h2
        simp [← h3]
      · rw [if_neg hm] at h
        by_cases hb : bound ≤ idx
        · rw [if_pos hb] at h; exact absurd h (by simp)
        · rw [if_neg hb] at h
          rw [Option.map_eq_some'] at h
          obtain ⟨⟨r, i, b⟩, hr, heq⟩ := h
          obtain ⟨hr1, hr2, hr3, hr4, hr5⟩ := ih (idx + 1) r i b hr
          simp only [Prod.mk.injEq] at heq
          obtain ⟨he1, he2, he3⟩ := heq
          subst he1; subst he2; subst he3
          refine ⟨?_, by simp only [List.length_cons]; omega,
            by simp only [List.length_cons]; omega, ?_, ?_⟩
          · simp only [List.length_cons, List.take_succ_cons]
            exact congrArg (p :: ·) hr1
          · intro c hc
            rcases List.mem_cons.mp hc with h' | h'
            · subst h'; exact hm
            · exact hr4 c h'
          · intro hb'
            rw [hr5 hb']

theorem fillPage_ok (last : Option Fullname) (bound : Nat) :
    ∀ (page : List RedditContent) (idx : Nat), idx + page.length ≤ bound →
      ∃ items idx' reached,
        fillPage last bound idx page = some (items, idx', reached) := by
  intro page
  induction page with
  | nil => intro idx _; exact ⟨[], idx, false, rfl⟩
  | cons p rest ih =>
      intro idx hle
      simp only [fillPage]
      by_cases hm : last = some p.FullId
      · rw [if_pos hm]; exact ⟨[], idx, true, rfl⟩
      · rw [if_neg hm]
        have hb : ¬bound ≤ idx := by simp at hle ⊢; omega
        rw [if_neg hb]
        obtain ⟨r, i, b, hr⟩ := ih (idx + 1) (by simp at hle ⊢; omega)
        rw [hr]
        exact ⟨p :: r, i, b, rfl⟩

theorem fillPage_full (last : Option Fullname) (bound : Nat) :
    ∀ (page : List RedditContent) (idx : Nat), idx + page.length ≤ bound →
      (∀ c ∈ page, ¬last = some c.FullId) →
      fillPage last bound idx page = some (page, idx + page.length, false) := by
  intro page
  induction page with
  | nil => intro idx _ _; simp [fillPage]
  | cons p rest ih =>
      intro idx hle hnm
      have hm : ¬last = some p.FullId := hnm p (by simp)
      have hb : ¬bound ≤ idx := by simp at hle ⊢; omega
      simp only [fillPage, if_neg hm, if_neg hb]
      rw [ih (idx + 1) (by simp at hle ⊢; omega)
        (fun c hc => hnm c (List.mem_cons_of_mem p hc))]
      simp only [Option.map_some', List.length_cons]
      refine congrArg some ?_
      refine Prod.mk.injEq .. |>.mpr ⟨rfl, ?_⟩
      refine Prod.mk.injEq .. |>.mpr ⟨by omega, rfl⟩

theorem walkLoop_succ (api : Nat → Nat → List RedditContent) (bound : Nat)
    (last : Option Fullname) (n ln off idx : Nat) :
    walkLoop api bound last (n + 1) ln off idx =
      if (api off (min ln 100)).isEmpty then (some [], [min ln 100])
      else
        match fillPage last bound idx (api off (min ln 100)) with
        | none => (none, [min ln 100])
        | some (items, idx', reached) =>
          if reached then (some items, [min ln 100])
          else
            ((walkLoop api bound last n (ln - 100)
                (off + (api off (min ln 100)).length) idx').1.map
              (fun r => items ++ r),
             min ln 100 :: (walkLoop api bound last n (ln - 100)
                (off + (api off (min ln 100)).length) idx').2) := rfl

theorem walkLoop_ok (api : Nat → Nat → List RedditContent) (bound : Nat)
    (last : Option Fullname)
    (Hapi : ∀ off lim, (api off lim).length ≤ lim) :
    ∀ (remCalls ln off idx : Nat), idx + ln ≤ bound →
      ∃ results,
        (walkLoop api bound last remCalls ln off idx).1 = some results ∧
        results.length ≤ ln := by
  intro remCalls
  induction remCalls with
  | zero => intro ln off idx _; exact ⟨[], rfl, Nat.zero_le ln⟩
  | succ n ih =>
      intro ln off idx hle
      have hpl : (api off (min ln 100)).length ≤ min ln 100 :=
        Hapi off (min ln 100)
      rw [walkLoop_succ]
      by_cases hempty : (api off (min ln 100)).isEmpty = true
      · rw [if_pos hempty]
        exact ⟨[], rfl, Nat.zero_le ln⟩
      · rw [if_neg hempty]
        obtain ⟨items, idx', reached, hfp⟩ :=
          fillPage_ok last bound (api off (min ln 100)) idx (by omega)
        obtain ⟨h1, h2, h3, h4, h5⟩ :=
          fillPage_sound last bound (api off (min ln 100)) idx items idx'
            reached hfp
        rw [hfp]
        cases reached with
        | true =>
            exact ⟨items, rfl, by omega⟩
        | false =>
            rw [h5 rfl] at h1 h2 h3 ⊢
            dsimp only
            obtain ⟨rest, hrest, hrlen⟩ :=
              ih (ln - 100) (off + (api off (min ln 100)).length) idx'
                (by omega)
            rw [hrest]
            refine ⟨api off (min ln 100) ++ rest, rfl, ?_⟩
            rw [List.length_append]
            omega

theorem walkLoop_no_marker (api : Nat → Nat → List RedditContent)
    (bound : Nat) (last : Option Fullname) :
    ∀ (remCalls ln off idx : Nat) (results : List RedditContent),
      (walkLoop api bound last remCalls ln off idx).1 = some results →
      ∀ c ∈ results, ¬last = some c.FullId := by
  intro remCalls
  induction remCalls with
  | zero =>
      intro ln off idx results h
      obtain rfl : ([] : List RedditContent) = results := by
        simpa [walkLoop] using h
      intro c hc
      exact absurd hc (List.not_mem_nil c)
  | succ n ih =>
      intro ln off idx results h
      rw [walkLoop_succ] at h
      split at h
      · obtain rfl : ([] : List RedditContent) = results := by simpa using h
        intro c hc
        exact absurd hc (List.not_mem_nil c)
      · split at h
        · exact absurd h (by simp)
        · rename_i items idx' reached heq
          obtain ⟨h1, h2, h3, h4, h5⟩ :=
            fillPage_sound last bound (api off (min ln 100)) idx items idx'
              reached heq
          split at h
          · obtain rfl : items = results := by simpa using h
            exact h4
          · dsimp only at h
            rw [Option.map_eq_some'] at h
            obtain ⟨r', hr', rfl⟩ := h
            intro c hc
            rcases List.mem_append.mp hc with hc' | hc'
            · exact h4 c hc'
            · exact ih (ln - 100) (off + (api off (min ln 100)).length)
                idx' r' hr' c hc'

theorem walkLoop_take (feed : List RedditContent) (bound : Nat)
    (last : Option Fullname) :
    ∀ (remCalls ln off idx : Nat) (results : List RedditContent),
      (walkLoop (feedApi feed) bound last remCalls ln off idx).1 =
        some results →
      results = (feed.drop off).take results.length := by
  intro remCalls
  induction remCalls with
  | zero =>
      intro ln off idx results h
      obtain rfl : ([] : List RedditContent) = results := by
        simpa [walkLoop] using h
      simp
  | succ n ih =>
      intro ln off idx results h
      rw [walkLoop_succ] at h
      split at h
      · obtain rfl : ([] : List RedditContent) = results := by simpa using h
        simp
      · split at h
        · exact absurd h (by simp)
        · rename_i items idx' reached heq
          obtain ⟨h1, h2, h3, h4, h5⟩ :=
            fillPage_sound last bound (feedApi feed off (min ln 100)) idx
              items idx' reached heq
          have hpagelen : (feedApi feed off (min ln 100)).length ≤ min ln 100 := by
            simp [feedApi]
          split at h
          · rename_i hr
            obtain rfl : items = results := by simpa using h
            have hlen : items.length ≤ min ln 100 :=
              le_trans h3 hpagelen
            calc items
                = (feedApi feed off (min ln 100)).take items.length := h1
              _ = (feed.drop off).take items.length := by
                    rw [feedApi, List.take_take]
                    congr 1
                    omega
          · rename_i hr
            rw [Bool.not_eq_true] at hr
            dsimp only at h
            rw [Option.map_eq_some'] at h
            obtain ⟨r', hr', rfl⟩ := h
            have hih := ih (ln - 100)
              (off + (feedApi feed off (min ln 100)).length) idx' r' hr'
            rw [h5 hr]
            have hpage : feedApi feed off (min ln 100) =
                (feed.drop off).take (feedApi feed off (min ln 100)).length := by
              rw [feedApi, List.take_eq_take]
              simp only [List.length_take]
              omega
            have hdrop : feed.drop (off + (feedApi feed off (min ln 100)).length)
                = (feed.drop off).drop (feedApi feed off (min ln 100)).length := by
              rw [List.drop_drop, Nat.add_comm]
            rw [hdrop] at hih
            rw [List.length_append, List.take_add]
            rw [← hpage, ← hih]

theorem walkLoop_full (feed : List RedditContent) (bound : Nat)
    (last : Option Fullname) :
    ∀ (remCalls ln off idx : Nat),
      remCalls = (ln + 99) / 100 → 0 < ln → off + ln ≤ feed.length →
      (∀ c ∈ (feed.drop off).take ln, ¬last = some c.FullId) →
      idx + ln ≤ bound →
      ∃ lims,
        walkLoop (feedApi feed) bound last remCalls ln off idx =
          (some ((feed.drop off).take ln), lims) ∧
        lims.length = remCalls ∧ ∀ l ∈ lims, l ≤ 100 := by
  intro remCalls
  induction remCalls with
  | zero => intro ln off idx hcalls hpos _ _ _; omega
  | succ n ih =>
      intro ln off idx hcalls hpos hlen hnm hbound
      have hdroplen : (feed.drop off).length = feed.length - off :=
        List.length_drop off feed
      have hpagelen : (feedApi feed off (min ln 100)).length = min ln 100 := by
        rw [feedApi, List.length_take]
        omega
      have hpage_take : feedApi feed off (min ln 100) =
          ((feed.drop off).take ln).take (min ln 100) := by
        rw [feedApi, List.take_take]
        congr 1
        omega
      have hne : ¬((feedApi feed off (min ln 100)).isEmpty = true) := by
        rw [List.isEmpty_iff]
        intro hnil
        have hl := congrArg List.length hnil
        rw [hpagelen] at hl
        simp at hl
        omega
      have hfull := fillPage_full last bound (feedApi feed off (min ln 100))
        idx (by rw [hpagelen]; omega)
        (fun c hc => hnm c (by
          rw [hpage_take] at hc
          exact List.take_subset _ _ hc))
      rw [walkLoop_succ, if_neg hne, hfull]
      dsimp only
      have hdd : feed.drop (off + 100) = (feed.drop off).drop 100 := by
        rw [List.drop_drop, Nat.add_comm]
      by_cases hsmall : ln ≤ 100
      · have hn0 : n = 0 := by omega
        subst hn0
        have hlim : min ln 100 = ln := by omega
        refine ⟨[min ln 100], ?_, by simp, ?_⟩
        · rw [show walkLoop (feedApi feed) bound last 0 (ln - 100)
              (off + (feedApi feed off (min ln 100)).length)
              (idx + (feedApi feed off (min ln 100)).length) =
              ((some [], []) : Option (List RedditContent) × List Nat)
            from rfl]
          dsimp only [Option.map_some']
          rw [List.append_nil, feedApi, hlim]
          simp
        · intro l hl
          have : l = min ln 100 := by simpa using hl
          omega
      · have hoff : off + (feedApi feed off (min ln 100)).length = off + 100 := by
          rw [hpagelen]
          omega
        have hidx : idx + (feedApi feed off (min ln 100)).length = idx + 100 := by
          rw [hpagelen]
          omega
        have hmarker : ∀ c ∈ (feed.drop (off + 100)).take (ln - 100),
            ¬last = some c.FullId := by
          intro c hc
          apply hnm
          have hsplit : (feed.drop off).take ln =
              (feed.drop off).take 100 ++
                ((feed.drop off).drop 100).take (ln - 100) := by
            rw [← List.take_add]
            congr 1
            omega
          rw [hsplit]
          rw [hdd] at hc
          exact List.mem_append_right _ hc
        obtain ⟨lims', heq, hlimslen, hlimsle⟩ := ih (ln - 100) (off + 100)
          (idx + 100) (by omega) (by omega) (by omega) hmarker (by omega)
        have hassemble : feedApi feed off (min ln 100) ++
            (feed.drop (off + 100)).take (ln - 100) =
            (feed.drop off).take ln := by
          have hlim : min ln 100 = 100 := by omega
          rw [feedApi, hlim, hdd, ← List.take_add]
          congr 1
          omega
        refine ⟨min ln 100 :: lims', ?_, ?_, ?_⟩
        · rw [hoff, hidx, heq]
          dsimp only [Option.map_some']
          rw [hassemble]
          simp
        · simp [hlimslen]
        · intro l hl
          rcases List.mem_cons.mp hl with hl' | hl'
          · omega
          · exact hlimsle l hl'

/-! ## C1 and C10: the walker's claims -/

/-- A content item whose id has seven characters, so its fullname fails the
format check. -/
def badPost : RedditContent :=
  { contentType := "t3", id := "zzzzzzz", title := "", upvotes := 0,
    comments := 0, date := 0, queryDate := 0 }

/-- Claim C1: a walk with a set marker never returns the marker item and
returns only a prefix of the feed ending before the marker's first
position; when the marker is not among the first n items and the feed can
fill every page, exactly ceil(n/100) calls are issued, each requesting at
most 100 items. -/
theorem c1_walk_marker (feed : List RedditContent) (num : Int) (X : Fullname)
    (hnum : 0 < num) :
    ∃ results lims,
      getNewestPosts (feedApi feed) num (some X) = (some results, lims) ∧
      (∀ c ∈ results, c.FullId ≠ X) ∧
      results = feed.take results.length ∧
      results.length ≤ feed.findIdx (fun c => decide (c.FullId = X)) ∧
      ((num.toNat ≤ feed.length ∧ ∀ c ∈ feed.take num.toNat, c.FullId ≠ X) →
        lims.length = (num.toNat + 99) / 100 ∧ ∀ l ∈ lims, l ≤ 100) := by
  have hnn : ¬num ≤ 0 := by omega
  have Hapi : ∀ off lim, (feedApi feed off lim).length ≤ lim := by
    intro off lim
    rw [feedApi, List.length_take]
    omega
  obtain ⟨results, hres, hrlen⟩ :=
    walkLoop_ok (feedApi feed) num.toNat (some X) Hapi
      ((num.toNat + 99) / 100) num.toNat 0 0 (by omega)
  refine ⟨results,
    (walkLoop (feedApi feed) num.toNat (some X) ((num.toNat + 99) / 100)
      num.toNat 0 0).2, ?_, ?_, ?_, ?_, ?_⟩
  · rw [getNewestPosts, if_neg hnn]
    exact Prod.ext hres rfl
  · intro c hc
    intro hceq
    exact walkLoop_no_marker (feedApi feed) num.toNat (some X) _ _ _ _
      results hres c hc (by rw [hceq])
  · have := walkLoop_take feed num.toNat (some X) _ _ _ _ results hres
    simpa using this
  · by_contra hgt
    push_neg at hgt
    have hpref : results = feed.take results.length := by
      have := walkLoop_take feed num.toNat (some X) _ _ _ _ results hres
      simpa using this
    have hmle : results.length ≤ feed.length := by
      have := congrArg List.length hpref
      rw [List.length_take] at this
      omega
    have hw : feed.findIdx (fun c => decide (c.FullId = X)) < feed.length := by
      omega
    have hXeq :
        (feed[feed.findIdx (fun c => decide (c.FullId = X))]).FullId = X := by
      have hfound := @List.findIdx_getElem _ (fun c => decide (c.FullId = X))
        feed hw
      simpa using hfound
    have hidxlt :
        feed.findIdx (fun c => decide (c.FullId = X)) <
          (feed.take results.length).length := by
      rw [List.length_take]
      omega
    have hmem : feed[feed.findIdx (fun c => decide (c.FullId = X))]
        ∈ results := by
      have hmem' := List.getElem_mem hidxlt
      rw [@List.getElem_take _ feed results.length _ hidxlt] at hmem'
      rw [hpref]
      exact hmem'
    have hno := walkLoop_no_marker (feedApi feed) num.toNat (some X) _ _ _ _
      results hres _ hmem
    exact hno (by rw [hXeq])
  · rintro ⟨hfeed, hmark⟩
    obtain ⟨lims', heq, hlen, hle⟩ :=
      walkLoop_full feed num.toNat (some X) ((num.toNat + 99) / 100)
        num.toNat 0 0 rfl (by omega) (by omega)
        (by
          intro c hc
          simp only [List.drop_zero] at hc
          intro habs
          exact hmark c hc (by
            injection habs with h'
            rw [h']))
        (by omega)
    rw [heq]
    exact ⟨by simpa using hlen, hle⟩

theorem c1_witness :
    (0 : Int) < 2 ∧
    ∃ results lims,
      getNewestPosts (feedApi [oldPost, newPost, badPost]) 2
        (some newPost.FullId) = (some results, lims) ∧
      (∀ c ∈ results, c.FullId ≠ newPost.FullId) ∧
      results = [oldPost, newPost, badPost].take results.length ∧
      results.length ≤
        [oldPost, newPost, badPost].findIdx
          (fun c => decide (c.FullId = newPost.FullId)) ∧
      (((2 : Int).toNat ≤ ([oldPost, newPost, badPost] : List RedditContent).length ∧
          ∀ c ∈ ([oldPost, newPost, badPost] : List RedditContent).take (2 : Int).toNat,
            c.FullId ≠ newPost.FullId) →
        lims.length = ((2 : Int).toNat + 99) / 100 ∧ ∀ l ∈ lims, l ≤ 100) :=
  ⟨by decide, c1_walk_marker [oldPost, newPost, badPost] 2 newPost.FullId
    (by decide)⟩

/-- Claim C10: under the precondition that every page response holds at most
the requested number of listings, every buffer write of the walk is in
bounds (no panic, modelled by a defined result) and the returned slice has
length at most num; a non-positive num yields an error before any API
call. -/
theorem c10_buffer_safety (api : Nat → Nat → List RedditContent) (num : Int)
    (last : Option Fullname)
    (Hapi : ∀ off lim, (api off lim).length ≤ lim) :
    (0 < num → ∃ results,
      (getNewestPosts api num last).1 = some results ∧
      results.length ≤ num.toNat) ∧
    (num ≤ 0 → getNewestPosts api num last = (none, [])) := by
  constructor
  · intro hpos
    have hnn : ¬num ≤ 0 := by omega
    rw [getNewestPosts, if_neg hnn]
    exact walkLoop_ok api num.toNat last Hapi ((num.toNat + 99) / 100)
      num.toNat 0 0 (by omega)
  · intro hneg
    rw [getNewestPosts, if_pos hneg]

/-! ## Batch lemmas for the bulk fetcher -/

theorem buildBatches_length (IDs : List Fullname) :
    ∀ (calls idx : Nat), (buildBatches IDs calls idx).length = calls := by
  intro calls
  induction calls with
  | zero => intro idx; rfl
  | succ n ih => intro idx; simp [buildBatches, ih]

theorem buildBatches_size (IDs : List Fullname) :
    ∀ (calls idx : Nat), ∀ b ∈ buildBatches IDs calls idx, b.length ≤ 100 := by
  intro calls
  induction calls with
  | zero => intro idx b hb; simp [buildBatches] at hb
  | succ n ih =>
      intro idx b hb
      simp only [buildBatches, List.mem_cons] at hb
      rcases hb with rfl | hb
      · by_cases hc : IDs.length ≤ idx + 100
        · rw [if_pos hc, List.length_drop]; omega
        · rw [if_neg hc, List.length_take]; omega
      · exact ih (idx + 100) b hb

theorem buildBatches_flatten (IDs : List Fullname) :
    ∀ (calls idx : Nat), calls = (IDs.length - idx + 99) / 100 →
      (buildBatches IDs calls idx).flatten = IDs.drop idx := by
  intro calls
  induction calls with
  | zero =>
      intro idx h
      have hle : IDs.length ≤ idx := by omega
      simp [buildBatches, List.drop_eq_nil_of_le hle]
  | succ n ih =>
      intro idx h
      simp only [buildBatches, List.flatten_cons]
      by_cases hc : IDs.length ≤ idx + 100
      · rw [if_pos hc]
        have hn : n = 0 := by omega
        subst hn
        simp [buildBatches]
      · rw [if_neg hc]
        rw [ih (idx + 100) (by omega)]
        rw [show IDs.drop (idx + 100) = (IDs.drop idx).drop 100 from by
          rw [List.drop_drop, Nat.add_comm]]
        exact List.take_append_drop 100 (IDs.drop idx)

theorem batchIDs_flatten (IDs : List Fullname) :
    (batchIDs IDs).flatten = IDs := by
  rw [batchIDs, buildBatches_flatten IDs _ 0 (by omega), List.drop_zero]

/-! ## Merge and drain lemmas for the bulk fetcher -/

theorem mergeFold_mono (ts : Nat) :
    ∀ (contents : List RedditContent) (acc : ContentGroup) (a : Fullname),
      ((acc.find a).isSome = true) →
      (((contents.foldl
          (fun m c => m.insert c.FullId { c with queryDate := ts })
          acc).find a).isSome = true) := by
  intro contents
  induction contents with
  | nil => intro acc a h; exact h
  | cons c rest ih =>
      intro acc a h
      rw [List.foldl_cons]
      exact ih _ a (ContentGroup.find_isSome_insert acc c.FullId _ a h)

theorem mergeFold_present (ts : Nat) :
    ∀ (contents : List RedditContent) (acc : ContentGroup),
      ∀ c ∈ contents,
        (((contents.foldl
            (fun m c => m.insert c.FullId { c with queryDate := ts })
            acc).find c.FullId).isSome = true) := by
  intro contents
  induction contents with
  | nil => intro acc c hc; simp at hc
  | cons c0 rest ih =>
      intro acc c hc
      rw [List.foldl_cons]
      rcases List.mem_cons.mp hc with rfl | hc'
      · apply mergeFold_mono
        rw [ContentGroup.find_insert_self]
        rfl
      · exact ih _ c hc'

theorem mergeFold_keys (ts : Nat) :
    ∀ (contents : List RedditContent) (acc : ContentGroup) (a : Fullname),
      a ∈ (contents.foldl
          (fun m c => m.insert c.FullId { c with queryDate := ts })
          acc).keys →
      a ∈ acc.keys ∨ ∃ c ∈ contents, a = c.FullId := by
  intro contents
  induction contents with
  | nil => intro acc a h; left; exact h
  | cons c rest ih =>
      intro acc a h
      rw [List.foldl_cons] at h
      rcases ih _ a h with h' | ⟨c', hc', rfl⟩
      · rcases (ContentGroup.mem_keys_insert acc c.FullId _ a).mp h' with
          h'' | h''
        · left; exact h''
        · right; exact ⟨c, by simp, h''⟩
      · right; exact ⟨c', List.mem_cons_of_mem c hc', rfl⟩

theorem drainStep_completions
    (lookup : List Fullname → Except Unit ChunkReply)
    (st : ContentGroup × Nat × Nat) (b : List Fullname) :
    (drainStep lookup st b).2.1 = st.2.1 + 1 := by
  unfold drainStep
  split <;> rfl

theorem drainFold_completions
    (lookup : List Fullname → Except Unit ChunkReply) :
    ∀ (batches : List (List Fullname)) (st : ContentGroup × Nat × Nat),
      (drainChunks lookup batches st).2.1 = st.2.1 + batches.length := by
  intro batches
  induction batches with
  | nil => intro st; rfl
  | cons b rest ih =>
      intro st
      rw [drainChunks, List.foldl_cons]
      rw [show List.foldl (drainStep lookup) (drainStep lookup st b) rest =
        drainChunks lookup rest (drainStep lookup st b) from rfl]
      rw [ih, drainStep_completions]
      simp only [List.length_cons]
      omega

theorem drainStep_keys (lookup : List Fullname → Except Unit ChunkReply)
    (st : ContentGroup × Nat × Nat) (b : List Fullname) (S : List Fullname)
    (hok : ∀ reply, lookup b = Except.ok reply →
      ∀ c ∈ reply.1, RedditContent.FullId c ∈ S)
    (hst : ∀ a ∈ (st.1).keys, a ∈ S) :
    ∀ a ∈ ((drainStep lookup st b).1).keys, a ∈ S := by
  unfold drainStep
  split
  · rename_i reply hlb
    intro a ha
    rw [show (mergeChunk st.1 reply, st.2.1 + 1, st.2.2).1 =
      mergeChunk st.1 reply from rfl] at ha
    rw [mergeChunk] at ha
    rcases mergeFold_keys reply.2 reply.1 st.1 a ha with h' | ⟨c, hc, rfl⟩
    · exact hst a h'
    · exact hok reply hlb c hc
  · exact hst

theorem drainFold_keys (lookup : List Fullname → Except Unit ChunkReply)
    (S : List Fullname) :
    ∀ (batches : List (List Fullname)) (st : ContentGroup × Nat × Nat),
      (∀ b ∈ batches, ∀ reply, lookup b = Except.ok reply →
        ∀ c ∈ reply.1, RedditContent.FullId c ∈ S) →
      (∀ a ∈ (st.1).keys, a ∈ S) →
      ∀ a ∈ ((drainChunks lookup batches st).1).keys, a ∈ S := by
  intro batches
  induction batches with
  | nil => intro st _ hst; exact hst
  | cons b rest ih =>
      intro st hok hst
      rw [drainChunks, List.foldl_cons]
      exact ih (drainStep lookup st b)
        (fun b' hb' => hok b' (List.mem_cons_of_mem b hb'))
        (drainStep_keys lookup st b S (hok b (by simp)) hst)

theorem drainStep_mono (lookup : List Fullname → Except Unit ChunkReply)
    (st : ContentGroup × Nat × Nat) (b : List Fullname) (a : Fullname)
    (h : ((st.1).find a).isSome = true) :
    (((drainStep lookup st b).1).find a).isSome = true := by
  unfold drainStep
  split
  · rename_i reply hlb
    rw [show (mergeChunk st.1 reply, st.2.1 + 1, st.2.2).1 =
      mergeChunk st.1 reply from rfl]
    rw [mergeChunk]
    exact mergeFold_mono reply.2 reply.1 st.1 a h
  · exact h

theorem drainFold_mono (lookup : List Fullname → Except Unit ChunkReply) :
    ∀ (batches : List (List Fullname)) (st : ContentGroup × Nat × Nat)
      (a : Fullname), ((st.1).find a).isSome = true →
      (((drainChunks lookup batches st).1).find a).isSome = true := by
  intro batches
  induction batches with
  | nil => intro st a h; exact h
  | cons b rest ih =>
      intro st a h
      rw [drainChunks, List.foldl_cons]
      exact ih (drainStep lookup st b) a (drainStep_mono lookup st b a h)

theorem drainFold_present (lookup : List Fullname → Except Unit ChunkReply) :
    ∀ (batches : List (List Fullname)) (st : ContentGroup × Nat × Nat)
      (b : List Fullname) (reply : ChunkReply),
      b ∈ batches → lookup b = Except.ok reply →
      ∀ c ∈ reply.1,
        (((drainChunks lookup batches st).1).find c.FullId).isSome = true := by
  intro batches
  induction batches with
  | nil => intro st b reply hb; simp at hb
  | cons b0 rest ih =>
      intro st b reply hb hlb c hc
      rw [drainChunks, List.foldl_cons]
      rcases List.mem_cons.mp hb with rfl | hb'
      · apply drainFold_mono
        show (((drainStep lookup st b).1).find c.FullId).isSome = true
        unfold drainStep
        rw [hlb]
        rw [show ((mergeChunk st.1 reply, st.2.1 + 1, st.2.2) :
          ContentGroup × Nat × Nat).1 = mergeChunk st.1 reply from rfl]
        rw [mergeChunk]
        exact mergeFold_present reply.2 reply.1 st.1 c hc
      · exact ih (drainStep lookup st b0) b reply hb' hlb c hc

theorem FetchPosts_map (lookup : List Fullname → Except Unit ChunkReply)
    (IDs : List Fullname) :
    (FetchPosts lookup IDs).map =
      (drainChunks lookup (batchIDs IDs) (ContentGroup.empty, 0, 0)).1 := rfl

theorem FetchPosts_missing (lookup : List Fullname → Except Unit ChunkReply)
    (IDs : List Fullname) :
    (FetchPosts lookup IDs).missing =
      IDs.filter (fun id =>
        (((drainChunks lookup (batchIDs IDs)
          (ContentGroup.empty, 0, 0)).1).find id).isNone) := rfl

/-! ## C2: chunking, permits, and key containment -/

/-- Claim C2: the bulk fetcher cuts the id list into consecutive chunks of
at most 100, makes exactly ceil(n/100) calls, pre-reserves that many
rate-limiter permits, and — when the platform only returns items that were
asked for — the keys of the merged result are a subset of the input ids. -/
theorem c2_fetchMany_batching (IDs : List Fullname)
    (lookup : List Fullname → Except Unit ChunkReply)
    (hlookup : ∀ b reply, lookup b = Except.ok reply →
      ∀ c ∈ reply.1, RedditContent.FullId c ∈ b) :
    (batchIDs IDs).flatten = IDs ∧
    (∀ b ∈ batchIDs IDs, b.length ≤ 100) ∧
    (batchIDs IDs).length = (IDs.length + 99) / 100 ∧
    (FetchPosts lookup IDs).permits = (IDs.length + 99) / 100 ∧
    (∀ a ∈ ((FetchPosts lookup IDs).map).keys, a ∈ IDs) := by
  refine ⟨batchIDs_flatten IDs, fun b hb => buildBatches_size IDs _ 0 b hb,
    ?_, rfl, ?_⟩
  · rw [batchIDs, buildBatches_length]
  · intro a ha
    rw [FetchPosts_map] at ha
    refine drainFold_keys lookup IDs (batchIDs IDs)
      (ContentGroup.empty, 0, 0) ?_ ?_ a ha
    · intro b hb reply hreply c hc
      have hmem : RedditContent.FullId c ∈ (batchIDs IDs).flatten :=
        List.mem_flatten.mpr ⟨b, hb, hlookup b reply hreply c hc⟩
      rwa [batchIDs_flatten] at hmem
    · intro a' ha'
      simp [ContentGroup.empty, ContentGroup.keys] at ha'

def ids250 : List Fullname := List.replicate 250 keyAbc

def lookupFail : List Fullname → Except Unit ChunkReply :=
  fun _ => Except.error ()

set_option maxRecDepth 8192 in
theorem c2_witness :
    ((batchIDs ids250).map List.length = [100, 100, 50]) ∧
    (batchIDs ids250).flatten = ids250 ∧
    (FetchPosts lookupFail ids250).permits = 3 ∧
    (∀ a ∈ ((FetchPosts lookupFail ids250).map).keys, a ∈ ids250) :=
  ⟨by decide,
   (c2_fetchMany_batching ids250 lookupFail (fun _ _ h => nomatch h)).1,
   by
     have h := (c2_fetchMany_batching ids250 lookupFail
       (fun _ _ h => nomatch h)).2.2.2.1
     rw [h]
     decide,
   (c2_fetchMany_batching ids250 lookupFail (fun _ _ h => nomatch h)).2.2.2.2⟩

/-! ## C7: per-chunk failure tolerance -/

/-- Claim C7: the bulk fetch never fails as a whole: the returned error is
always nil, exactly one completion is drained per chunk, every successful
chunk's items are present in the merged map, and the missing list is exactly
the requested ids absent from the map (warned, not fatal). -/
theorem c7_fetchMany_tolerance (IDs : List Fullname)
    (lookup : List Fullname → Except Unit ChunkReply) :
    (FetchPosts lookup IDs).err = none ∧
    (FetchPosts lookup IDs).completions = (IDs.length + 99) / 100 ∧
    (∀ b ∈ batchIDs IDs, ∀ reply, lookup b = Except.ok reply →
      ∀ c ∈ reply.1,
        (((FetchPosts lookup IDs).map).find c.FullId).isSome = true) ∧
    (∀ a, a ∈ (FetchPosts lookup IDs).missing ↔
      (a ∈ IDs ∧ ((FetchPosts lookup IDs).map).find a = none)) := by
  refine ⟨rfl, ?_, ?_, ?_⟩
  · show (drainChunks lookup (batchIDs IDs)
      (ContentGroup.empty, 0, 0)).2.1 = _
    rw [drainFold_completions, batchIDs, buildBatches_length]
    simp
  · intro b hb reply hreply c hc
    rw [FetchPosts_map]
    exact drainFold_present lookup (batchIDs IDs) (ContentGroup.empty, 0, 0)
      b reply hb hreply c hc
  · intro a
    rw [FetchPosts_missing, FetchPosts_map, List.mem_filter]
    simp [Option.isNone_iff_eq_none]

def ids1 : List Fullname := [keyAbc]

def lookupOk : List Fullname → Except Unit ChunkReply :=
  fun _ => Except.ok ([oldPost], 7)

theorem c7_witness :
    (FetchPosts lookupOk ids1).err = none ∧
    (FetchPosts lookupOk ids1).completions = 1 ∧
    (((FetchPosts lookupOk ids1).map).find oldPost.FullId).isSome = true :=
  ⟨(c7_fetchMany_tolerance ids1 lookupOk).1,
   by
     have h := (c7_fetchMany_tolerance ids1 lookupOk).2.1
     rw [h]
     decide,
   (c7_fetchMany_tolerance ids1 lookupOk).2.2.1 ids1 (by decide)
     ([oldPost], 7) rfl oldPost (by decide)⟩

/-! ## C6: discovery on an unseeded feed -/

/-- Claim C6: a feed whose last-seen cursor is empty has its tick result
merged with the trackPosts flag off, so no item of that feed is added to
the tracked set and none is counted; the walk only establishes the first
cursor, set to the fullname of the first returned item. -/
theorem c6_unseeded_feed
    (fetch : String → Option Fullname → Except Unit (List RedditContent))
    (sub : Subreddit) (st : ContentGroup × Nat) (tracked : ContentGroup)
    (h : sub.last = "") :
    (task fetch sub).2.trackPosts = false ∧
    mergeTaskResult st (task fetch sub).2 = st ∧
    (TrackNewlyCreatedPosts fetch [sub] tracked).2 = (tracked, 0) ∧
    (∀ r0 rest, fetch sub.name none = Except.ok (r0 :: rest) →
      (task fetch sub).1.last = r0.FullId) := by
  have htp : (task fetch sub).2.trackPosts = false := by
    rw [task, h]
    rcases hf : fetch sub.name none with e | result
    · simp [hf]
    · simp [hf]
  have hmerge0 : ∀ (st' : ContentGroup × Nat) (tr : TaskResult),
      tr.trackPosts = false → mergeTaskResult st' tr = st' := by
    intro st' tr htr
    rw [mergeTaskResult, htr]
    simp
  refine ⟨htp, hmerge0 st _ htp, ?_, ?_⟩
  · rw [TrackNewlyCreatedPosts]
    simp only [List.map_cons, List.map_nil, List.foldl_cons, List.foldl_nil]
    rw [hmerge0 (tracked, 0) _ htp]
  · intro r0 rest hf
    rw [task, h]
    simp [hf]

def subFresh : Subreddit := { name := "demo", last := "" }

def fetchDemo : String → Option Fullname → Except Unit (List RedditContent) :=
  fun _ _ => Except.ok [oldPost, newPost]

theorem c6_witness :
    subFresh.last = "" ∧
    (task fetchDemo subFresh).2.trackPosts = false ∧
    mergeTaskResult (ContentGroup.empty, 0) (task fetchDemo subFresh).2 =
      (ContentGroup.empty, 0) ∧
    (task fetchDemo subFresh).1.last = oldPost.FullId :=
  ⟨rfl,
   (c6_unseeded_feed fetchDemo subFresh (ContentGroup.empty, 0)
     ContentGroup.empty rfl).1,
   (c6_unseeded_feed fetchDemo subFresh (ContentGroup.empty, 0)
     ContentGroup.empty rfl).2.1,
   (c6_unseeded_feed fetchDemo subFresh (ContentGroup.empty, 0)
     ContentGroup.empty rfl).2.2.2 oldPost [newPost] rfl⟩

/-! ## C8: key-format invariant of the tracked set -/

/-- Claim C8 counterexample: the discovery tick's insertion performs no
format check, so a walked item with a seven-character id puts a key into
the tracked set that fails IsValid; the invariant is not preserved by that
operation as claimed. -/
theorem c8_counterexample :
    ((mergeTaskResult (ContentGroup.empty, 0)
      { result := [badPost], trackPosts := true, errored := false }).1).keys =
      [badPost.FullId] ∧
    Fullname.IsValid badPost.FullId = false := by
  refine ⟨by decide, by decide⟩

theorem trackFold_keys :
    ∀ (posts : List RedditContent) (st : ContentGroup × Nat),
      (∀ k ∈ (st.1).keys, k.IsValid = true) →
      (∀ c ∈ posts, (RedditContent.FullId c).IsValid = true) →
      ∀ k ∈ ((posts.foldl
          (fun s post => (s.1.insert post.FullId post, s.2 + 1)) st).1).keys,
        k.IsValid = true := by
  intro posts
  induction posts with
  | nil => intro st hst _; exact hst
  | cons p rest ih =>
      intro st hst hall
      rw [List.foldl_cons]
      apply ih
      · intro k hk
        rcases (ContentGroup.mem_keys_insert st.1 p.FullId p k).mp hk with
          h' | rfl
        · exact hst k h'
        · exact hall p (by simp)
      · intro c hc
        exact hall c (List.mem_cons_of_mem p hc)

theorem mongoFold_keys :
    ∀ (docs : List (Fullname × RedditContent)) (set : ContentGroup),
      (∀ k ∈ set.keys, k.IsValid = true) →
      ∀ k ∈ (recieveListingsMongo set docs).keys, k.IsValid = true := by
  intro docs
  induction docs with
  | nil => intro set hset; exact hset
  | cons d rest ih =>
      intro set hset
      rw [recieveListingsMongo, List.foldl_cons]
      apply ih
      rw [mongoStep]
      by_cases hv : d.1.IsValid = true
      · by_cases hex : (set.find d.1).isSome = true
        · simpa [hv, hex] using hset
        · simp only [hv, Bool.not_true, if_neg, hex, if_false]
          intro k hk
          rcases (ContentGroup.mem_keys_insert set d.1 d.2 k).mp hk with
            h' | rfl
          · exact hset k h'
          · exact hv
      · simpa [hv] using hset

/-- Claim C8 amended: the mongo merge-from-storage preserves the key
validity invariant unconditionally because it skips invalid ids; the
discovery tick's insertion preserves it only under the assumption that
every walked item carries a valid fullname, since the code performs no
check there. -/
theorem c8_key_validity (set : ContentGroup)
    (docs : List (Fullname × RedditContent)) (tr : TaskResult) (n : Nat)
    (hset : ∀ k ∈ set.keys, k.IsValid = true) :
    (∀ k ∈ (recieveListingsMongo set docs).keys, k.IsValid = true) ∧
    ((∀ c ∈ tr.result, (RedditContent.FullId c).IsValid = true) →
      ∀ k ∈ ((mergeTaskResult (set, n) tr).1).keys, k.IsValid = true) := by
  refine ⟨mongoFold_keys docs set hset, ?_⟩
  intro hall
  by_cases htr : (!tr.trackPosts) = true
  · rw [mergeTaskResult, if_pos htr]
    exact hset
  · rw [mergeTaskResult, if_neg htr]
    exact trackFold_keys tr.result (set, n) hset hall

def trGood : TaskResult :=
  { result := [oldPost], trackPosts := true, errored := false }

theorem c8_witness :
    (∀ k ∈ (recieveListingsMongo ContentGroup.empty
      [(keyAbc, oldPost)]).keys, k.IsValid = true) ∧
    (∀ k ∈ ((mergeTaskResult (ContentGroup.empty, 0) trGood).1).keys,
      k.IsValid = true) :=
  ⟨(c8_key_validity ContentGroup.empty [(keyAbc, oldPost)] trGood 0
      (by decide)).1,
   (c8_key_validity ContentGroup.empty [(keyAbc, oldPost)] trGood 0
      (by decide)).2 (by decide)⟩

/-- A page-serving function that always returns the empty page. -/
def apiEmpty : Nat → Nat → List RedditContent := fun _ _ => []

theorem c10_witness :
    (∃ results, (getNewestPosts apiEmpty 5 none).1 = some results ∧
      results.length ≤ (5 : Int).toNat) ∧
    getNewestPosts apiEmpty 0 none = (none, []) :=
  ⟨(c10_buffer_safety apiEmpty 5 none
      (fun off lim => by simp [apiEmpty])).1 (by decide),
   (c10_buffer_safety apiEmpty 0 none
      (fun off lim => by simp [apiEmpty])).2 (by decide)⟩

end Votewatch
